import Mathlib

/-!
A shallow embedding of the PNG container parser of `pngrep` (files `pngparse.go`
and `main.go`): signature validation, sequential chunk decoding and IHDR header
validation.  Byte streams are modelled as `List Nat` consumed front-first; Go's
`io.ReadFull` semantics on such a deterministic stream are made explicit, Go
runtime panics (index / slice out of range) are a distinct `Result.crash`
outcome, and every `fmt.Errorf` site of the source becomes one constructor of
`PErr`, carrying the same diagnostic data.
-/

namespace Pngrep

/-- A byte of the input stream (values are byte values `0..255`; nothing in the
parser depends on the upper bound, so bytes are plain naturals). -/
abbrev Byte := Nat

/-- The fixed 8-byte PNG signature `PNGMagic = "\x89PNG\r\n\x1a\n"`. -/
def pngMagic : List Byte := [0x89, 0x50, 0x4E, 0x47, 0x0D, 0x0A, 0x1A, 0x0A]

/-- `iHDRlength = 13`, the mandatory IHDR payload size. -/
def iHDRlength : Nat := 13

/-- The color-type → allowed-bit-depths table built by `init()`:
`ct2bd[0]={1,2,4,8,16}`, `ct2bd[2]={8,16}`, `ct2bd[3]={1,2,4,8}`,
`ct2bd[4]=ct2bd[2]`, `ct2bd[6]=ct2bd[2]`; absent keys give `none`. -/
def ct2bd : Nat → Option (List Nat)
  | 0 => some [1, 2, 4, 8, 16]
  | 2 => some [8, 16]
  | 3 => some [1, 2, 4, 8]
  | 4 => some [8, 16]
  | 6 => some [8, 16]
  | _ => none

/-- `type Chunk struct`: one PNG chunk record.  Field defaults are Go's zero
values (`var c Chunk`); `Type` is spelled `type` because `Type` is a Lean
keyword. -/
structure Chunk where
  Len : Nat := 0
  type : List Byte := []
  Data : List Byte := []
  Checksum : List Byte := []
deriving Repr, DecidableEq

/-- `type PNG struct`: the decoded image descriptor (field `NumCHunks` keeps
the source's spelling). -/
structure PNG where
  Width : Nat := 0
  Height : Nat := 0
  Depth : Nat := 0
  ColorType : Nat := 0
  Compression : Nat := 0
  Filter : Nat := 0
  Interlace : Nat := 0
  Chunks : List Chunk := []
  NumCHunks : Nat := 0
deriving Repr, DecidableEq

/-- Every error the parser can produce, one constructor per error site:
the two `io.ReadFull` errors propagated unchanged by `Load` for the signature
read, the synthesized `fillRead` short-read error, the `wrong PNG header`
error, and the eight `parseIHDR` validation errors (each carrying the same
diagnostic data as the corresponding `fmt.Errorf`). -/
inductive PErr where
  | ioEOF : PErr
  | ioUnexpectedEOF : PErr
  | wrongHeader (got expected : List Byte) : PErr
  | shortRead (expected actual : Nat) : PErr
  | invalidIHDRLength (got expected : Nat) : PErr
  | invalidWidth (got : Nat) : PErr
  | invalidHeight (got : Nat) : PErr
  | invalidColorType (got : Nat) : PErr
  | invalidDepth (colorType : Nat) (allowed : List Nat) (got : Nat) : PErr
  | invalidCompression (got : Nat) : PErr
  | invalidFilter (got : Nat) : PErr
  | invalidInterlace (got : Nat) : PErr
deriving Repr, DecidableEq

/-- Outcome of a fallible Go computation: a value, a returned `error`, or a
runtime panic (`crash`, e.g. index out of range). -/
inductive Result (α : Type) where
  | ok (a : α) : Result α
  | err (e : PErr) : Result α
  | crash : Result α
deriving Repr, DecidableEq

/-- `binary.BigEndian.Uint32` on a 4-byte slice (all call sites pass exactly
4 bytes). -/
def be32 : List Byte → Nat
  | [b0, b1, b2, b3] => ((b0 * 256 + b1) * 256 + b2) * 256 + b3
  | _ => 0

/-- `func fillRead(buf *[]byte, r io.Reader) error` on a deterministic byte
stream: `io.ReadFull` delivers `expected` bytes when that many are available
(`n = expected`, `err = nil`); otherwise `n` is the number available, `err` is
`io.EOF`/`io.ErrUnexpectedEOF`, and `fillRead`'s `n != expected` branch
replaces it with the synthesized short-read error. -/
def fillRead (expected : Nat) (s : List Byte) : Except PErr (List Byte × List Byte) :=
  if s.length < expected then Except.error (PErr.shortRead expected s.length)
  else Except.ok (s.take expected, s.drop expected)

/-- `func (c *Chunk) Fill(r io.Reader) error`: reads length, type, data and
checksum in order.  The returned `Chunk` is the state of `c` when `Fill`
returns — on an error at field _k_ the fields before _k_ are already set and
the rest keep their zero values, exactly as in the Go method whose early
`return err` skips the remaining assignments. -/
def Chunk.Fill (s : List Byte) : Chunk × List Byte × Option PErr :=
  match fillRead 4 s with
  | Except.error e => ({}, s, some e)
  | Except.ok (lenB, s1) =>
    let len := be32 lenB
    match fillRead 4 s1 with
    | Except.error e => ({ Len := len }, s1, some e)
    | Except.ok (typeB, s2) =>
      match fillRead len s2 with
      | Except.error e => ({ Len := len, type := typeB }, s2, some e)
      | Except.ok (dataB, s3) =>
        match fillRead 4 s3 with
        | Except.error e => ({ Len := len, type := typeB, Data := dataB }, s3, some e)
        | Except.ok (crcB, s4) =>
          ({ Len := len, type := typeB, Data := dataB, Checksum := crcB }, s4, none)

/-- The chunk-collection loop of `Load`
(`for err == nil { var c Chunk; err = (&c).Fill(r); if c.Type != "" { append } }`),
with an explicit fuel argument to make the recursion structural.  One unit of
fuel is one loop iteration; a successful iteration consumes at least 12 bytes
of the stream, so fuel `s.length + 1` (as supplied by `loadChunks`) can never
run out before the loop stops of its own accord. -/
def loadChunksFuel : Nat → List Byte → List Chunk × PErr
  | 0, _ => ([], PErr.shortRead 0 0)
  | fuel + 1, s =>
    match Chunk.Fill s with
    | (c, _, some e) => (if c.type = [] then [] else [c], e)
    | (c, rest, none) =>
      let r := loadChunksFuel fuel rest
      ((if c.type = [] then [] else [c]) ++ r.1, r.2)

/-- The chunk-collection loop of `Load` at its always-sufficient fuel. -/
def loadChunks (s : List Byte) : List Chunk × PErr :=
  loadChunksFuel (s.length + 1) s

/-- Go slice expression `l[lo:hi]` (here always with `lo ≤ hi`): panics
(`none`) unless `hi ≤ len(l)`. -/
def slice (l : List Byte) (lo hi : Nat) : Option (List Byte) :=
  if hi ≤ l.length then some ((l.drop lo).take (hi - lo)) else none

/-- `func (png *PNG) parseIHDR(iHDR *Chunk) error`: validates the declared
length, then width, height, bit depth / color type, compression, filter and
interlace, in source order with early returns.  Each data access
(`tmp[0:4]`, `tmp[4:8]`, `tmp[8]` … `tmp[12]`) is guarded only by what Go
guards it with — the slice/index bound against the actual `Data` — and panics
(`Result.crash`) when `Data` is shorter, since only `iHDR.Len` was checked. -/
def parseIHDR (png : PNG) (iHDR : Chunk) : Result PNG :=
  if iHDR.Len ≠ iHDRlength then
    Result.err (PErr.invalidIHDRLength iHDR.Len iHDRlength)
  else
    let tmp := iHDR.Data
    match slice tmp 0 4 with
    | none => Result.crash
    | some wB =>
      let w := be32 wB
      if w = 0 ∨ w > 2 <<< 30 then Result.err (PErr.invalidWidth w)
      else
        match slice tmp 4 8 with
        | none => Result.crash
        | some hB =>
          let h := be32 hB
          if h = 0 ∨ h > 2 <<< 30 then Result.err (PErr.invalidHeight h)
          else
            match tmp[8]? with
            | none => Result.crash
            | some depth =>
              match tmp[9]? with
              | none => Result.crash
              | some colorType =>
                match ct2bd colorType with
                | none => Result.err (PErr.invalidColorType colorType)
                | some allowedct =>
                  if ¬ allowedct.contains depth then
                    Result.err (PErr.invalidDepth colorType allowedct depth)
                  else
                    match tmp[10]? with
                    | none => Result.crash
                    | some comp =>
                      if comp ≠ 0 then Result.err (PErr.invalidCompression comp)
                      else
                        match tmp[11]? with
                        | none => Result.crash
                        | some filt =>
                          if filt ≠ 0 then Result.err (PErr.invalidFilter filt)
                          else
                            match tmp[12]? with
                            | none => Result.crash
                            | some inter =>
                              if inter ≠ 0 ∧ inter ≠ 1 then
                                Result.err (PErr.invalidInterlace inter)
                              else
                                Result.ok { png with
                                  Width := w, Height := h, Depth := depth,
                                  ColorType := colorType, Compression := comp,
                                  Filter := filt, Interlace := inter }

/-- `func (png *PNG) Fill() error`: `png.parseIHDR(png.Chunks[0])` — indexing
an empty chunk list panics (`Result.crash`) — then `NumCHunks = len(Chunks)`. -/
def PNG.Fill (png : PNG) : Result PNG :=
  match png.Chunks[0]? with
  | none => Result.crash
  | some c0 =>
    match parseIHDR png c0 with
    | Result.ok p => Result.ok { p with NumCHunks := p.Chunks.length }
    | Result.err e => Result.err e
    | Result.crash => Result.crash

/-- `func Load(r io.Reader) (PNG, error)`: the raw `io.ReadFull` error for the
8 signature bytes is propagated unchanged (`io.EOF` when nothing was read,
`io.ErrUnexpectedEOF` on a partial read); a full but different signature gives
the `wrong PNG header` error; then the chunk loop runs and — because the
`err` of `if err := (&png).Fill(); err != nil` shadows the loop's `err` — the
loop's terminating error is discarded and only `(&png).Fill()` decides the
outcome. -/
def Load (s : List Byte) : Result PNG :=
  if s.length < 8 then
    Result.err (if s.length = 0 then PErr.ioEOF else PErr.ioUnexpectedEOF)
  else if s.take 8 ≠ pngMagic then
    Result.err (PErr.wrongHeader (s.take 8) pngMagic)
  else
    PNG.Fill { Chunks := (loadChunks (s.drop 8)).1 }

/-- The byte tag `"tEXt"`. -/
def tEXtTag : List Byte := [0x74, 0x45, 0x58, 0x74]

/-- The chunk loop of `GetTextChunks`. -/
def getTextChunksGo : List Chunk → List (List Byte)
  | [] => []
  | c :: cs => if c.type = tEXtTag then c.Data :: getTextChunksGo cs else getTextChunksGo cs

/-- `func (png PNG) GetTextChunks() []string`: the payloads of the chunks of
type `"tEXt"`, in order. -/
def GetTextChunks (png : PNG) : List (List Byte) :=
  getTextChunksGo png.Chunks

/-- Big-endian 4-byte encoding of `n < 2^32`; used to build input streams. -/
def be32enc (n : Nat) : List Byte :=
  [n / 2 ^ 24 % 256, n / 2 ^ 16 % 256, n / 2 ^ 8 % 256, n % 256]

/-- The wire encoding of one chunk: length, type, data, checksum. -/
def encodeChunk (c : Chunk) : List Byte :=
  be32enc c.Len ++ c.type ++ c.Data ++ c.Checksum

/-- The wire encoding of a chunk sequence. -/
def encodeChunks : List Chunk → List Byte
  | [] => []
  | c :: cs => encodeChunk c ++ encodeChunks cs

/-- A well-formed chunk record: the declared length is the data length and
fits in the 4-byte field, the type tag is 4 bytes, the checksum is 4 bytes. -/
def ChunkWF (c : Chunk) : Prop :=
  c.Len = c.Data.length ∧ c.Len < 2 ^ 32 ∧ c.type.length = 4 ∧ c.Checksum.length = 4

instance (c : Chunk) : Decidable (ChunkWF c) := by
  unfold ChunkWF; infer_instance

/-- A well-formed header chunk: 1×1 pixels, greyscale (color type 0), bit
depth 8, compression 0, filter 0, interlace 0. -/
def ihdrChunk : Chunk :=
  { Len := 13, type := [73, 72, 68, 82],
    Data := [0, 0, 0, 1, 0, 0, 0, 1, 8, 0, 0, 0, 0], Checksum := [0, 0, 0, 0] }

/-- A well-formed `tEXt` chunk with payload `"Author\x00Jane"`. -/
def textChunk : Chunk :=
  { Len := 11, type := tEXtTag,
    Data := [65, 117, 116, 104, 111, 114, 0, 74, 97, 110, 101], Checksum := [0, 0, 0, 0] }

/-- A well-formed empty `IEND` chunk. -/
def iendChunk : Chunk :=
  { Len := 0, type := [73, 69, 78, 68], Data := [], Checksum := [0, 0, 0, 0] }

/-- A chunk identical to `ihdrChunk` except for its type tag (`"XXXX"`). -/
def xxxxChunk : Chunk :=
  { Len := 13, type := [88, 88, 88, 88],
    Data := [0, 0, 0, 1, 0, 0, 0, 1, 8, 0, 0, 0, 0], Checksum := [0, 0, 0, 0] }

/-! ## Helper lemmas -/

theorem fillRead_ok_iff {n : Nat} {s : List Byte} {p : List Byte × List Byte} :
    fillRead n s = Except.ok p ↔ n ≤ s.length ∧ p = (s.take n, s.drop n) := by
  unfold fillRead
  split
  · simp; omega
  · simp; constructor
    · intro h; exact ⟨by omega, h.symm⟩
    · intro h; exact h.2.symm

theorem fillRead_error_iff {n : Nat} {s : List Byte} {e : PErr} :
    fillRead n s = Except.error e ↔ s.length < n ∧ e = PErr.shortRead n s.length := by
  unfold fillRead
  split
  · rename_i hlt; simp [hlt]; exact eq_comm
  · simp; omega

theorem fillRead_full {n : Nat} {s : List Byte} (h : n ≤ s.length) :
    fillRead n s = Except.ok (s.take n, s.drop n) :=
  fillRead_ok_iff.mpr ⟨h, rfl⟩

theorem fillRead_append {n : Nat} {a : List Byte} (b : List Byte) (h : a.length = n) :
    fillRead n (a ++ b) = Except.ok (a, b) := by
  rw [fillRead_full (by simp [List.length_append]; omega)]
  rw [List.take_left' h, List.drop_left' h]

theorem be32enc_length (n : Nat) : (be32enc n).length = 4 := rfl

theorem be32_be32enc {n : Nat} (h : n < 2 ^ 32) : be32 (be32enc n) = n := by
  simp only [be32enc, be32]
  omega

theorem chunkFill_none_length {s : List Byte} {c : Chunk} {rest : List Byte}
    (h : Chunk.Fill s = (c, rest, none)) : rest.length + 12 ≤ s.length := by
  unfold Chunk.Fill at h
  cases h1 : fillRead 4 s with
  | error e => rw [h1] at h; simp at h
  | ok p1 =>
    rw [h1] at h
    obtain ⟨hn1, hp1⟩ := fillRead_ok_iff.mp h1
    obtain ⟨lenB, s1⟩ := p1
    simp only [Prod.mk.injEq] at hp1
    obtain ⟨hb1, hs1⟩ := hp1
    simp only at h
    cases h2 : fillRead 4 s1 with
    | error e => rw [h2] at h; simp at h
    | ok p2 =>
      rw [h2] at h
      obtain ⟨hn2, hp2⟩ := fillRead_ok_iff.mp h2
      obtain ⟨typeB, s2⟩ := p2
      simp only [Prod.mk.injEq] at hp2
      obtain ⟨hb2, hs2⟩ := hp2
      simp only at h
      cases h3 : fillRead (be32 lenB) s2 with
      | error e => rw [h3] at h; simp at h
      | ok p3 =>
        rw [h3] at h
        obtain ⟨hn3, hp3⟩ := fillRead_ok_iff.mp h3
        obtain ⟨dataB, s3⟩ := p3
        simp only [Prod.mk.injEq] at hp3
        obtain ⟨hb3, hs3⟩ := hp3
        simp only at h
        cases h4 : fillRead 4 s3 with
        | error e => rw [h4] at h; simp at h
        | ok p4 =>
          rw [h4] at h
          obtain ⟨hn4, hp4⟩ := fillRead_ok_iff.mp h4
          obtain ⟨crcB, s4⟩ := p4
          simp only [Prod.mk.injEq] at hp4
          obtain ⟨hb4, hs4⟩ := hp4
          simp only [Prod.mk.injEq] at h
          obtain ⟨-, hrest, -⟩ := h
          subst hrest hs4 hs3 hs2 hs1
          simp only [List.length_drop] at hn2 hn3 hn4 ⊢
          omega

theorem loadChunksFuel_congr : ∀ (f g : Nat) (s : List Byte),
    s.length < f → s.length < g → loadChunksFuel f s = loadChunksFuel g s := by
  intro f
  induction f with
  | zero => intro g s hf; omega
  | succ f ih =>
    intro g s hf hg
    cases g with
    | zero => omega
    | succ g =>
      simp only [loadChunksFuel]
      rcases hcf : Chunk.Fill s with ⟨c, rest, oe⟩
      cases oe with
      | some e => rfl
      | none =>
        have hlen := chunkFill_none_length hcf
        simp only
        rw [ih g rest (by omega) (by omega)]

theorem loadChunks_eq_fuel {f : Nat} {s : List Byte} (h : s.length < f) :
    loadChunksFuel f s = loadChunks s :=
  loadChunksFuel_congr f (s.length + 1) s h (by omega)

theorem chunkFill_encode {c : Chunk} (r : List Byte) (h : ChunkWF c) :
    Chunk.Fill (encodeChunk c ++ r) = (c, r, none) := by
  obtain ⟨hlen, hlt, htype, hcrc⟩ := h
  unfold Chunk.Fill encodeChunk
  rw [List.append_assoc, List.append_assoc, List.append_assoc]
  rw [fillRead_append _ (be32enc_length c.Len)]
  simp only
  rw [fillRead_append _ htype]
  simp only
  rw [be32_be32enc hlt]
  rw [fillRead_append _ hlen.symm]
  simp only
  rw [fillRead_append _ hcrc]

theorem loadChunksFuel_encode : ∀ (cs : List Chunk) (fuel : Nat),
    (encodeChunks cs).length < fuel → (∀ c ∈ cs, ChunkWF c) →
    loadChunksFuel fuel (encodeChunks cs) = (cs, PErr.shortRead 4 0) := by
  intro cs
  induction cs with
  | nil =>
    intro fuel hf _
    cases fuel with
    | zero => omega
    | succ f => simp [encodeChunks, loadChunksFuel, Chunk.Fill, fillRead]
  | cons c cs ih =>
    intro fuel hf hwf
    have hc : ChunkWF c := hwf c (by simp)
    cases fuel with
    | zero => omega
    | succ f =>
      simp only [encodeChunks] at hf ⊢
      simp only [loadChunksFuel, chunkFill_encode _ hc]
      have htype : c.type ≠ [] := by
        intro habs
        have := hc.2.2.1
        rw [habs] at this
        simp at this
      have hrec : (encodeChunks cs).length < f := by
        have : (encodeChunk c).length = 12 + c.Len := by
          simp [encodeChunk, be32enc, hc.2.2.1, hc.2.2.2, hc.1]
          omega
        simp [List.length_append, this] at hf
        omega
      rw [ih f hrec (fun x hx => hwf x (by simp [hx]))]
      simp [htype]

theorem loadChunks_encode {cs : List Chunk} (hwf : ∀ c ∈ cs, ChunkWF c) :
    loadChunks (encodeChunks cs) = (cs, PErr.shortRead 4 0) :=
  loadChunksFuel_encode cs _ (by omega) hwf

theorem Load_magic (s : List Byte) :
    Load (pngMagic ++ s) = PNG.Fill { Chunks := (loadChunks s).1 } := by
  unfold Load
  have h8 : pngMagic.length = 8 := rfl
  rw [List.take_left' h8, List.drop_left' h8]
  simp [pngMagic, List.length_append]

theorem parseIHDR_no_wrongHeader (png : PNG) (c : Chunk) (g e : List Byte) :
    parseIHDR png c ≠ Result.err (PErr.wrongHeader g e) := by
  intro habs
  unfold parseIHDR at habs
  simp only [] at habs
  repeat' split at habs
  all_goals simp_all

theorem parseIHDR_ok_chunks {png r : PNG} {c : Chunk}
    (h : parseIHDR png c = Result.ok r) :
    r.Chunks = png.Chunks ∧ r.NumCHunks = png.NumCHunks := by
  unfold parseIHDR at h
  simp only [] at h
  repeat' split at h
  all_goals simp_all
  rw [← h]
  exact ⟨rfl, rfl⟩

theorem PNGFill_no_wrongHeader (png : PNG) (g e : List Byte) :
    PNG.Fill png ≠ Result.err (PErr.wrongHeader g e) := by
  cases hc0 : png.Chunks[0]? with
  | none => simp [PNG.Fill, hc0]
  | some c0 =>
    cases hp : parseIHDR png c0 with
    | ok p => simp [PNG.Fill, hc0, hp]
    | err e2 =>
      simp only [PNG.Fill, hc0, hp, ne_eq, Result.err.injEq]
      intro habs
      rw [habs] at hp
      exact parseIHDR_no_wrongHeader png c0 g e hp
    | crash => simp [PNG.Fill, hc0, hp]

theorem parseIHDR_bytes (png : PNG) (t crc : List Byte)
    (a0 a1 a2 a3 b0 b1 b2 b3 dep ct comp filt inter : Byte) :
    parseIHDR png { Len := 13, type := t,
                    Data := [a0, a1, a2, a3, b0, b1, b2, b3, dep, ct, comp, filt, inter],
                    Checksum := crc }
      = (if be32 [a0, a1, a2, a3] = 0 ∨ 2147483648 < be32 [a0, a1, a2, a3] then
           Result.err (PErr.invalidWidth (be32 [a0, a1, a2, a3]))
         else if be32 [b0, b1, b2, b3] = 0 ∨ 2147483648 < be32 [b0, b1, b2, b3] then
           Result.err (PErr.invalidHeight (be32 [b0, b1, b2, b3]))
         else
           match ct2bd ct with
           | none => Result.err (PErr.invalidColorType ct)
           | some allowedct =>
             if ¬ allowedct.contains dep then
               Result.err (PErr.invalidDepth ct allowedct dep)
             else if comp ≠ 0 then Result.err (PErr.invalidCompression comp)
             else if filt ≠ 0 then Result.err (PErr.invalidFilter filt)
             else if inter ≠ 0 ∧ inter ≠ 1 then Result.err (PErr.invalidInterlace inter)
             else
               Result.ok { png with
                 Width := be32 [a0, a1, a2, a3], Height := be32 [b0, b1, b2, b3],
                 Depth := dep, ColorType := ct, Compression := comp, Filter := filt,
                 Interlace := inter }) := by
  simp only [parseIHDR, slice, iHDRlength, show (2 <<< 30 : Nat) = 2147483648 from rfl]
  norm_num

/-- **C1** (amended).  A chunk-read failure stops chunk collection immediately,
but the error itself is discarded rather than surfaced: because the `err` of
`if err := (&png).Fill(); err != nil` shadows the loop's `err`, the result of
`Load` on any signature-prefixed stream is computed solely from the collected
chunk list — the loop's terminating error (clean end-of-stream or not) never
reaches the caller. -/
theorem c1_chunk_read_error_is_discarded (s : List Byte) :
    Load (pngMagic ++ s) = PNG.Fill { Chunks := (loadChunks s).1 } :=
  Load_magic s

/-- **C1** counterexample.  A stream whose second chunk declares length 100
but is followed by only 40 bytes: the chunk read fails with the short-read
error `expected 100, got 40` (not clean end-of-stream), yet `Load` succeeds,
returning the partial chunk list (the truncated chunk included, with empty
data) — the read error is not surfaced and a partial chunk list is used. -/
theorem c1_counterexample :
    (loadChunks (encodeChunk ihdrChunk ++ [0, 0, 0, 100] ++ tEXtTag
        ++ List.replicate 40 0)).2 = PErr.shortRead 100 40
    ∧ Load (pngMagic ++ encodeChunk ihdrChunk ++ [0, 0, 0, 100] ++ tEXtTag
        ++ List.replicate 40 0)
      = Result.ok { Width := 1, Height := 1, Depth := 8, ColorType := 0, Compression := 0,
                    Filter := 0, Interlace := 0,
                    Chunks := [ihdrChunk, { Len := 100, type := tEXtTag }],
                    NumCHunks := 2 } := by
  constructor <;> rfl

/-- **C2**.  On a stream holding exactly the 8 signature bytes the chunk list
stays empty and `png.Fill()` evaluates `png.Chunks[0]`, an index out of range
on an empty slice: `Load` panics (`Result.crash`) instead of returning an
explicit missing-header-chunk error. -/
theorem c2_empty_chunk_list_crashes :
    (loadChunks []).1 = [] ∧ Load pngMagic = Result.crash := by
  constructor <;> rfl

/-- **C4** counterexample.  A first chunk whose type tag is `"XXXX"`, with
declared length 13 and a fully valid header payload, is accepted: `Load`
succeeds even though the tag is not `"IHDR"`, refuting the claim that any
non-`IHDR` first tag is rejected. -/
theorem c4_counterexample :
    Load (pngMagic ++ encodeChunk xxxxChunk)
      = Result.ok { Width := 1, Height := 1, Depth := 8, ColorType := 0, Compression := 0,
                    Filter := 0, Interlace := 0, Chunks := [xxxxChunk], NumCHunks := 1 } := by
  rfl

/-- **C4** (amended).  Header validation never inspects the chunk's 4-byte
type tag: `parseIHDR` reads only the declared length and the payload, so its
verdict is unchanged under any replacement of the tag. -/
theorem c4_type_tag_never_inspected (png : PNG) (c : Chunk) (t : List Byte) :
    parseIHDR png { c with type := t } = parseIHDR png c :=
  rfl

/-- **C3**.  First chunk declares length 13, its 4-byte tag is read, but the
stream ends before 13 data bytes arrive: the partially filled chunk (empty
data) is still appended to the chunk list, and header parsing — whose only
guard is the declared length field — then slices `Data[0:4]` out of the empty
payload and panics: `Load` crashes instead of returning an error. -/
theorem c3_truncated_header_payload_crashes (t d : List Byte)
    (ht : t.length = 4) (hd : d.length < 13) :
    (loadChunks ([0, 0, 0, 13] ++ t ++ d)).1
      = [{ Len := 13, type := t, Data := [], Checksum := [] }]
    ∧ Load (pngMagic ++ ([0, 0, 0, 13] ++ t ++ d)) = Result.crash := by
  have htne : t ≠ [] := by
    intro habs; rw [habs] at ht; simp at ht
  have hcf : Chunk.Fill ([0, 0, 0, 13] ++ t ++ d)
      = ({ Len := 13, type := t }, d, some (PErr.shortRead 13 d.length)) := by
    unfold Chunk.Fill
    rw [List.append_assoc]
    rw [fillRead_append (t ++ d) (by rfl)]
    simp only [be32]
    rw [fillRead_append d ht]
    norm_num
    rw [fillRead_error_iff.mpr ⟨hd, rfl⟩]
  have hlc : loadChunks ([0, 0, 0, 13] ++ t ++ d)
      = ([{ Len := 13, type := t, Data := [], Checksum := [] }],
         PErr.shortRead 13 d.length) := by
    unfold loadChunks loadChunksFuel
    rw [hcf]
    simp [htne]
  refine ⟨by rw [hlc], ?_⟩
  rw [Load_magic, hlc]
  simp only [PNG.Fill]
  norm_num
  simp [parseIHDR, slice, iHDRlength]

/-- **C3** witness at tag `"IHDR"` and a 5-byte truncated payload. -/
theorem c3_witness :
    ([(73 : Byte), 72, 68, 82].length = 4) ∧ ([(0 : Byte), 0, 0, 1, 0].length < 13)
    ∧ Load (pngMagic ++ ([0, 0, 0, 13] ++ [73, 72, 68, 82] ++ [0, 0, 0, 1, 0]))
        = Result.crash :=
  ⟨rfl, by norm_num,
   (c3_truncated_header_payload_crashes [73, 72, 68, 82] [0, 0, 0, 1, 0]
     rfl (by norm_num)).2⟩

/-- **C5**.  In an otherwise-valid header, width and height are decoded
big-endian from payload bytes `[0:4)` and `[4:8)` and validation fails exactly
when the decoded value is zero or strictly greater than `2×2^30 = 2147483648`
(the check `w == 0 || w > 2<<30`, applied to width first, then height). -/
theorem c5_dimension_bounds (w h : Nat) (hw : w < 2 ^ 32) (hh : h < 2 ^ 32) :
    parseIHDR {} { Len := 13, type := [73, 72, 68, 82],
                   Data := be32enc w ++ be32enc h ++ [8, 0, 0, 0, 0],
                   Checksum := [0, 0, 0, 0] }
      = (if w = 0 ∨ 2147483648 < w then Result.err (PErr.invalidWidth w)
         else if h = 0 ∨ 2147483648 < h then Result.err (PErr.invalidHeight h)
         else Result.ok { Width := w, Height := h, Depth := 8, ColorType := 0,
                          Compression := 0, Filter := 0, Interlace := 0 }) := by
  have hw4 : be32 (be32enc w) = w := be32_be32enc hw
  have hh4 : be32 (be32enc h) = h := be32_be32enc hh
  simp only [be32enc, List.cons_append, List.nil_append]
  rw [parseIHDR_bytes]
  simp only [be32enc] at hw4 hh4
  rw [hw4, hh4]
  norm_num [ct2bd]

/-- **C5** witness: width 2147483648 (the inclusive boundary) is accepted,
width 2147483649 is rejected; height 1 throughout. -/
theorem c5_witness :
    ((2147483648 : Nat) < 2 ^ 32) ∧ ((2147483649 : Nat) < 2 ^ 32) ∧ ((1 : Nat) < 2 ^ 32)
    ∧ parseIHDR {} { Len := 13, type := [73, 72, 68, 82],
                     Data := be32enc 2147483648 ++ be32enc 1 ++ [8, 0, 0, 0, 0],
                     Checksum := [0, 0, 0, 0] }
        = Result.ok { Width := 2147483648, Height := 1, Depth := 8, ColorType := 0,
                      Compression := 0, Filter := 0, Interlace := 0 }
    ∧ parseIHDR {} { Len := 13, type := [73, 72, 68, 82],
                     Data := be32enc 2147483649 ++ be32enc 1 ++ [8, 0, 0, 0, 0],
                     Checksum := [0, 0, 0, 0] }
        = Result.err (PErr.invalidWidth 2147483649) := by
  refine ⟨by norm_num, by norm_num, by norm_num, ?_, ?_⟩
  · rw [c5_dimension_bounds 2147483648 1 (by norm_num) (by norm_num)]
    norm_num
  · rw [c5_dimension_bounds 2147483649 1 (by norm_num) (by norm_num)]
    norm_num

/-- **C6** counterexample.  At exhaustion exactly at a chunk boundary (empty
remaining stream) the chunk reader reports `shortRead 4 0` — the same error
value it reports for a stream that dies mid-chunk after its 4-byte length
field — so the reported condition is not distinct from a mid-field
short-read error. -/
theorem c6_counterexample :
    (Chunk.Fill []).2.2 = some (PErr.shortRead 4 0)
    ∧ (Chunk.Fill [0, 0, 0, 5]).2.2 = some (PErr.shortRead 4 0) := by
  constructor <;> rfl

/-- **C6** (amended).  When fewer than 4 bytes remain where a new chunk would
start (in particular zero bytes, exhaustion exactly at a chunk boundary), the
chunk reader fails with the generic short-read error `expected 4, got n` — not
a distinct end-of-stream condition — and the decoder infers "no more chunks"
from the chunk's still-empty type tag, discarding it instead of appending. -/
theorem c6_boundary_detection (s : List Byte) (h : s.length < 4) :
    (Chunk.Fill s).2.2 = some (PErr.shortRead 4 s.length)
    ∧ (Chunk.Fill s).1.type = []
    ∧ (loadChunks s).1 = [] := by
  have hcf : Chunk.Fill s = ({}, s, some (PErr.shortRead 4 s.length)) := by
    unfold Chunk.Fill
    rw [fillRead_error_iff.mpr ⟨h, rfl⟩]
  refine ⟨by rw [hcf], by rw [hcf], ?_⟩
  unfold loadChunks loadChunksFuel
  rw [hcf]
  simp

/-- **C6** witness at the empty stream. -/
theorem c6_witness :
    (([] : List Byte).length < 4)
    ∧ (Chunk.Fill []).2.2 = some (PErr.shortRead 4 ([] : List Byte).length)
    ∧ (Chunk.Fill []).1.type = []
    ∧ (loadChunks []).1 = [] := by
  refine ⟨by norm_num, ?_⟩
  exact c6_boundary_detection [] (by norm_num)

/-- **C7** (amended).  `Load` reads exactly 8 signature bytes.  When all 8
are available the check passes iff they equal `89 50 4E 47 0D 0A 1A 0A`, and
any mismatch fails with the wrong-header error carrying both the received and
the expected bytes; but a short read of the signature is NOT reported that
way — the underlying `io.ReadFull` error (`io.EOF` on an empty stream,
`io.ErrUnexpectedEOF` on a partial one) is propagated unchanged, and no
wrong-header error can arise once the signature matched. -/
theorem c7_signature_check (s : List Byte) :
    (s.length = 0 → Load s = Result.err PErr.ioEOF)
    ∧ (0 < s.length → s.length < 8 → Load s = Result.err PErr.ioUnexpectedEOF)
    ∧ (8 ≤ s.length → s.take 8 ≠ pngMagic →
        Load s = Result.err (PErr.wrongHeader (s.take 8) pngMagic))
    ∧ (s.take 8 = pngMagic → ∀ g e, Load s ≠ Result.err (PErr.wrongHeader g e)) := by
  refine ⟨?_, ?_, ?_, ?_⟩
  · intro h0
    simp [Load, h0]
  · intro h1 h2
    rw [Load, if_pos h2, if_neg (by omega)]
  · intro h1 h2
    rw [Load, if_neg (by omega)]
    simp [h2]
  · intro hm g e
    have h8 : 8 ≤ s.length := by
      have := congrArg List.length hm
      simp [pngMagic, List.length_take] at this
      omega
    rw [Load, if_neg (by omega)]
    simp [hm]
    exact PNGFill_no_wrongHeader _ g e

/-- **C7** counterexample.  A 3-byte stream (a strict prefix of the valid
signature): the claim demands a wrong-header error reporting received and
expected byte sequences, but `Load` propagates the raw `io.ErrUnexpectedEOF`
from `io.ReadFull`, which carries no byte sequences. -/
theorem c7_counterexample :
    Load [0x89, 0x50, 0x4E] = Result.err PErr.ioUnexpectedEOF := by
  rfl

/-- **C7** witness: the empty stream, a 3-byte stream, a full 8-byte
all-zero signature, and a matching signature. -/
theorem c7_witness :
    Load [] = Result.err PErr.ioEOF
    ∧ Load [0, 0, 0] = Result.err PErr.ioUnexpectedEOF
    ∧ Load [0, 0, 0, 0, 0, 0, 0, 0]
        = Result.err (PErr.wrongHeader [0, 0, 0, 0, 0, 0, 0, 0] pngMagic)
    ∧ Load pngMagic ≠ Result.err (PErr.wrongHeader [] []) :=
  ⟨(c7_signature_check []).1 (by norm_num),
   (c7_signature_check [0, 0, 0]).2.1 (by norm_num) (by norm_num),
   by
     have := (c7_signature_check [0, 0, 0, 0, 0, 0, 0, 0]).2.2.1 (by norm_num) (by decide)
     simpa using this,
   (c7_signature_check pngMagic).2.2.2 (by decide) [] []⟩

/-- **C8**.  In an otherwise-valid header (1×1 pixels, compression, filter
and interlace all 0), the (colorType, bitDepth) pair is accepted exactly when
`ct2bd` maps the color type to a depth list containing the bit depth — the
fixed table {0:[1,2,4,8,16], 2:[8,16], 3:[1,2,4,8], 4:[8,16], 6:[8,16]}; an
unknown color type fails carrying the received value, and a depth outside the
selected list fails carrying the allowed list and the received depth. -/
theorem c8_colortype_depth_table (ct dep : Byte) :
    parseIHDR {} { Len := 13, type := [73, 72, 68, 82],
                   Data := [0, 0, 0, 1, 0, 0, 0, 1, dep, ct, 0, 0, 0],
                   Checksum := [0, 0, 0, 0] }
      = (match ct2bd ct with
         | none => Result.err (PErr.invalidColorType ct)
         | some allowedct =>
           if ¬ allowedct.contains dep then
             Result.err (PErr.invalidDepth ct allowedct dep)
           else Result.ok { Width := 1, Height := 1, Depth := dep, ColorType := ct,
                            Compression := 0, Filter := 0, Interlace := 0 }) := by
  rw [parseIHDR_bytes]
  norm_num [be32]

/-- **C9**.  For every valid signature-prefixed stream of N well-formed
chunks (each chunk's declared length matching its data and fitting 4 bytes,
4-byte tag and checksum) whose first chunk passes header validation, `Load`
succeeds and returns a descriptor whose chunk sequence is exactly those N
chunks in original order — the header chunk remaining in the sequence — and
whose `NumCHunks` equals the length of the chunk sequence. -/
theorem c9_chunk_sequence_preserved (cs : List Chunk) (h0 : cs ≠ [])
    (hwf : ∀ c ∈ cs, ChunkWF c)
    (hih : ∃ r, parseIHDR { Chunks := cs } (cs.head h0) = Result.ok r) :
    ∃ png, Load (pngMagic ++ encodeChunks cs) = Result.ok png
      ∧ png.Chunks = cs ∧ png.NumCHunks = cs.length := by
  obtain ⟨r, hr⟩ := hih
  have hload : Load (pngMagic ++ encodeChunks cs) = PNG.Fill { Chunks := cs } := by
    rw [Load_magic, loadChunks_encode hwf]
  have hc0 : ({ Chunks := cs } : PNG).Chunks[0]? = some (cs.head h0) := by
    cases cs with
    | nil => exact absurd rfl h0
    | cons a l => simp
  have hchunks := (parseIHDR_ok_chunks hr).1
  refine ⟨{ r with NumCHunks := r.Chunks.length }, ?_, ?_, ?_⟩
  · rw [hload]
    unfold PNG.Fill
    simp only [hc0, hr]
  · simpa using hchunks
  · simpa using congrArg List.length hchunks

/-- **C9** witness: the two-chunk stream [IHDR, tEXt]. -/
theorem c9_witness :
    ∃ png, Load (pngMagic ++ encodeChunks [ihdrChunk, textChunk]) = Result.ok png
      ∧ png.Chunks = [ihdrChunk, textChunk] ∧ png.NumCHunks = 2 :=
  c9_chunk_sequence_preserved [ihdrChunk, textChunk] (by decide) (by decide)
    ⟨{ Width := 1, Height := 1, Depth := 8, ColorType := 0, Compression := 0, Filter := 0,
       Interlace := 0, Chunks := [ihdrChunk, textChunk], NumCHunks := 0 }, by decide⟩

/-- **C10**.  `GetTextChunks` returns, in file order, exactly the raw
payloads of the chunks whose type tag is `"tEXt"`; on the concrete descriptor
with tags [IHDR, tEXt, IEND] and tEXt payload `"Author\x00Jane"` it returns
exactly that payload, and with no tEXt chunk it returns the empty list, not
an error. -/
theorem c10_text_chunk_extraction :
    (∀ png : PNG,
      GetTextChunks png = (png.Chunks.filter fun c => c.type == tEXtTag).map Chunk.Data)
    ∧ GetTextChunks { Chunks := [ihdrChunk, textChunk, iendChunk] }
        = [[65, 117, 116, 104, 111, 114, 0, 74, 97, 110, 101]]
    ∧ GetTextChunks { Chunks := [ihdrChunk, iendChunk] } = [] := by
  have aux : ∀ cs : List Chunk,
      getTextChunksGo cs = (cs.filter fun c => c.type == tEXtTag).map Chunk.Data := by
    intro cs
    induction cs with
    | nil => rfl
    | cons c l ih =>
      by_cases hc : c.type = tEXtTag <;>
        simp [getTextChunksGo, List.filter_cons, hc, ih]
  exact ⟨fun png => aux png.Chunks, by rfl, by rfl⟩

end Pngrep
